import Mathlib

/-!
# Configuration file handling of the FOSSA CLI (`config/file.go`)

A shallow embedding of `readConfigFile`, `parseConfigFile`, `setDefaultValues`
and `WriteConfigFile`, together with the parts of the outside world they
consult: the process environment, the file system, the YAML codec and the git
repository of the working directory.

Conventions of the embedding.

* A Go `error` value is an `Error`; a nil error is `none : Option Error`.
* A Go function returning `(T, error)` whose value is used next to a non-nil
  error returns a pair `T × Option Error`; where the caller drops the value on
  error it returns `Except Error T`.
* A run-time panic (here: indexing a slice out of range) is the `error` side
  of `Except Panic`; a function that returns normally yields `.ok`.
* Byte slices are `String`s; `append` on byte slices is `++`.
* The element type of `Modules` (`ModuleConfig`, declared elsewhere in the
  package) is a type parameter `M`.
-/

namespace config

/-! ## Errors and panics -/

/-- Go `error` values that occur in this file. -/
inductive Error where
  /-- An error built by `fmt.Errorf` with the given message. -/
  | errorf (msg : String)
  /-- The operating system reports that the file does not exist. -/
  | errNotExist
  /-- Any other error reported by the operating system, the codec or go-git. -/
  | other (msg : String)
  deriving DecidableEq, Repr

/-- Go `os.IsNotExist`; it answers false on a nil error. -/
def IsNotExist : Option Error → Bool
  | some .errNotExist => true
  | _ => false

/-- A Go run-time panic. -/
inductive Panic where
  /-- Message `index out of range [i] with length len`. -/
  | indexOutOfRange (i len : Nat)
  deriving DecidableEq, Repr

/-- Go slice indexing `xs[i]`: panics when `i` is not below `len(xs)`. -/
def index {α : Type} (xs : List α) (i : Nat) : Except Panic α :=
  match xs.get? i with
  | some x => .ok x
  | none => .error (.indexOutOfRange i xs.length)

/-! ## The on-disk document (`configFileV1`) -/

/-- Go `configFileCLIV1`. -/
structure configFileCLIV1 where
  APIKey : String := ""
  Server : String := ""
  Project : String := ""
  Locator : String := ""
  deriving DecidableEq, Repr

/-- Go `configFileAnalyzeV1`. -/
structure configFileAnalyzeV1 (M : Type) where
  Modules : List M := []
  deriving DecidableEq, Repr

/-- Go `configFileV1`. The default field values are the zero values of Go, so
`({} : configFileV1 M)` is the composite literal `configFileV1{}`. -/
structure configFileV1 (M : Type) where
  Version : Int := 0
  CLI : configFileCLIV1 := {}
  Analyze : configFileAnalyzeV1 M := {}
  deriving DecidableEq, Repr

/-! ## The git repository of the working directory (go-git) -/

/-- The go-git type `config.RemoteConfig`, reduced to the field that is read. -/
structure RemoteConfig where
  URLs : List String
  deriving DecidableEq, Repr

/-- The go-git type `Remote`; `Config` is its accessor `Config()`. -/
structure Remote where
  Config : RemoteConfig
  deriving DecidableEq, Repr

/-- The go-git type `plumbing.Reference`; `Hash` holds `Hash().String()`, the
textual form of the hash the reference points to. -/
structure Reference where
  Hash : String
  deriving DecidableEq, Repr

/-- The go-git type `Repository`, reduced to the two queries that are made:
`Remote(name)` returns `(*Remote, error)` and `Head()` returns
`(*plumbing.Reference, error)`. -/
structure Repository where
  Remote : String → Option Remote × Option Error
  Head : Except Error Reference

/-- What `setDefaultValues` reads from outside: `os.Getenv` (an unset variable
reads as the empty string) and `git.PlainOpen`. -/
structure World where
  Getenv : String → String
  PlainOpen : String → Except Error Repository

/-! ## `setDefaultValues` -/

/-- Go `setDefaultValues` (file.go, lines 70-110). -/
def setDefaultValues {M : Type} (w : World) (c : configFileV1 M) :
    Except Panic (configFileV1 M × Option Error) := do
  let mut c := c
  -- Set config version
  c := { c with Version := 1 }
  -- Set default endpoint.
  if c.CLI.Server = "" then
    c := { c with CLI.Server := w.Getenv "FOSSA_ENDPOINT" }
    if c.CLI.Server = "" then
      c := { c with CLI.Server := "https://app.fossa.io" }
  -- Load API key from environment variable.
  if c.CLI.APIKey = "" then
    c := { c with CLI.APIKey := w.Getenv "FOSSA_API_KEY" }
  -- Infer default locator and project from git.
  if c.CLI.Locator = "" then
    match w.PlainOpen "." with
    | .ok repo =>
      let mut project := c.CLI.Project
      if project = "" then
        match repo.Remote "origin" with
        | (some origin, none) =>
          project ← index origin.Config.URLs 0
          c := { c with CLI.Project := project }
        | _ => pure ()
      match repo.Head with
      | .ok revision =>
        c := { c with CLI.Locator := "git+" ++ project ++ "$" ++ revision.Hash }
      | .error _ => pure ()
    | .error _ => pure ()
  return (c, none)

/-! ## The file system and the YAML codec -/

/-- The file system as this file uses it. `Stat` is the error of `os.Stat`
(the file information is discarded by the callers), `ReadFile` is
`ioutil.ReadFile`, and `writeFault` is the error `ioutil.WriteFile` meets on a
path, if any. Paths are compared as strings: two spellings of one file are two
paths. -/
structure FS where
  Stat : String → Option Error
  ReadFile : String → Except Error String
  writeFault : String → Option Error

/-- Go `ioutil.WriteFile`. A successful write makes the path exist with the
written content; a failed write is taken to change nothing. The permission
bits are not tracked. -/
def FS.WriteFile (fs : FS) (filename data : String) (_perm : Nat) : Option Error × FS :=
  match fs.writeFault filename with
  | some err => (some err, fs)
  | none =>
    (none,
      { fs with
        Stat := fun p => if p = filename then none else fs.Stat p
        ReadFile := fun p => if p = filename then .ok data else fs.ReadFile p })

/-- The YAML library (`gopkg.in/yaml.v2`) at the type `configFileV1`.
`Unmarshal` decodes into a zero-valued document and returns what the document
holds afterwards together with the error; `Marshal` encodes a document. -/
structure Codec (M : Type) where
  Unmarshal : String → configFileV1 M × Option Error
  Marshal : configFileV1 M → Except Error String

/-! ## `parseConfigFile` and `readConfigFile` -/

/-- Go `parseConfigFile` (file.go, lines 48-68). -/
def parseConfigFile {M : Type} (w : World) (fs : FS) (codec : Codec M) (filename : String) :
    Except Panic (configFileV1 M × Option Error) := do
  -- Read configuration file.
  match fs.ReadFile filename with
  | .error err => return ({}, some err)
  | .ok bytes =>
    let (config, err) := codec.Unmarshal bytes
    if err ≠ none then
      return (config, err)
    let (config, err) ← setDefaultValues w config
    if err ≠ none then
      return (config, err)
    return (config, none)

/-- Go `readConfigFile` (file.go, lines 31-46). -/
def readConfigFile {M : Type} (w : World) (fs : FS) (codec : Codec M) (path : String) :
    Except Panic (String × configFileV1 M × Option Error) := do
  let mut path := path
  if path ≠ "" ∧ fs.Stat path ≠ none ∧ IsNotExist (fs.Stat path) = true then
    return (path, {}, some (.errorf "invalid config file specified"))
  else if fs.Stat ".fossa.yml" = none then
    path := ".fossa.yml"
  else if fs.Stat ".fossa.yaml" = none then
    path := ".fossa.yaml"
  if path = "" then
    let (conf, err) ← setDefaultValues w {}
    return (path, conf, err)
  let (conf, err) ← parseConfigFile w fs codec path
  return (path, conf, err)

/-! ## `WriteConfigFile` -/

/-- Modelled from the spec: the declaration of `CLIConfig` is not part of
file.go. The fields are those the spec lists for the in-memory configuration
(endpoint URL, API key, project identifier, locator string, config file path
actually used, module list), under the names `WriteConfigFile` reads them by;
`Locator` is the one field `WriteConfigFile` does not touch. -/
structure CLIConfig (M : Type) where
  APIKey : String := ""
  Endpoint : String := ""
  Project : String := ""
  Locator : String := ""
  ConfigFilePath : String := ""
  Modules : List M := []
  deriving DecidableEq, Repr

/-- The two comment lines `WriteConfigFile` puts in front of the YAML text. -/
def configHeader : String :=
  "# Generated by FOSSA CLI (https://github.com/fossas/fossa-cli)\n# Visit https://fossa.io to learn more\n"

/-- Go `WriteConfigFile` (file.go, lines 112-140). The configuration is passed
by pointer in Go; the embedding returns its value after the call, then the
file system after the call, then the returned error. -/
def WriteConfigFile {M : Type} (codec : Codec M) (fs : FS) (conf : CLIConfig M) :
    CLIConfig M × FS × Option Error :=
  let conf := if conf.ConfigFilePath = "" then { conf with ConfigFilePath := ".fossa.yml" } else conf
  let writeConfig : configFileV1 M :=
    { Version := 1
      CLI := { APIKey := conf.APIKey, Server := conf.Endpoint, Project := conf.Project }
      Analyze := { Modules := conf.Modules } }
  match codec.Marshal writeConfig with
  | .error err => (conf, fs, some err)
  | .ok yamlConfig =>
    let (err, fs) := fs.WriteFile conf.ConfigFilePath (configHeader ++ yamlConfig) 0o777
    (conf, fs, err)

/-! ## Derived definitions

Functions that name parts of the code above, used to state the results. None
of them is called by the embedded functions.
-/

/-- The document after the three unconditional steps of `setDefaultValues`
(version, server, API key), before anything is asked of git. -/
def scalarDefaults {M : Type} (w : World) (d : configFileV1 M) : configFileV1 M :=
  { Version := 1
    CLI :=
      { APIKey := if d.CLI.APIKey = "" then w.Getenv "FOSSA_API_KEY" else d.CLI.APIKey
        Server :=
          if d.CLI.Server = "" then
            if w.Getenv "FOSSA_ENDPOINT" = "" then "https://app.fossa.io" else w.Getenv "FOSSA_ENDPOINT"
          else d.CLI.Server
        Project := d.CLI.Project
        Locator := d.CLI.Locator }
    Analyze := d.Analyze }

/-- The project the git block of `setDefaultValues` works with. -/
def gitProject (repo : Repository) (project : String) : Except Panic String :=
  if project = "" then
    match repo.Remote "origin" with
    | (some origin, none) => index origin.Config.URLs 0
    | _ => .ok project
  else .ok project

/-- The locator after the git block, for a given project. -/
def gitLocator (repo : Repository) (project : String) : String :=
  match repo.Head with
  | .ok revision => "git+" ++ project ++ "$" ++ revision.Hash
  | .error _ => ""

/-- True when the working directory is a repository whose remote `origin` is
found and lists no URL. -/
def originWithoutURL (w : World) : Bool :=
  match w.PlainOpen "." with
  | .ok repo =>
    match repo.Remote "origin" with
    | (some origin, none) => origin.Config.URLs.isEmpty
    | _ => false
  | .error _ => false

/-- The inputs on which `setDefaultValues` reaches `URLs[0]` with an empty
slice: locator and project both empty, and an `origin` remote without URL. -/
def firstURLMissing {M : Type} (w : World) (d : configFileV1 M) : Bool :=
  decide (d.CLI.Locator = "") && decide (d.CLI.Project = "") && originWithoutURL w

/-- The path `readConfigFile` goes on with once the explicit path has passed
the existence check: the first conventional name that exists, else the explicit
path. -/
def resolvedPath (fs : FS) (path : String) : String :=
  if fs.Stat ".fossa.yml" = none then ".fossa.yml"
  else if fs.Stat ".fossa.yaml" = none then ".fossa.yaml"
  else path

/-- Pairs a path with the document and error of a callee, as the two
`return path, conf, err` statements of `readConfigFile` do. -/
def withPath {M : Type} (path : String) (r : Except Panic (configFileV1 M × Option Error)) :
    Except Panic (String × configFileV1 M × Option Error) :=
  match r with
  | .ok (conf, err) => .ok (path, conf, err)
  | .error p => .error p

/-- The document `WriteConfigFile` encodes for a configuration, written out
field by field. -/
def persistedDocument {M : Type} (conf : CLIConfig M) : configFileV1 M :=
  { Version := 1
    CLI := { APIKey := conf.APIKey, Server := conf.Endpoint, Project := conf.Project, Locator := "" }
    Analyze := { Modules := conf.Modules } }

/-- The path `WriteConfigFile` writes to. -/
def writePath {M : Type} (conf : CLIConfig M) : String :=
  if conf.ConfigFilePath = "" then ".fossa.yml" else conf.ConfigFilePath

/-- Whether the project inference of `setDefaultValues`, run on this project in
the current working directory, gives the same project back. -/
def projectSettled (w : World) (project : String) : Bool :=
  match w.PlainOpen "." with
  | .error _ => true
  | .ok repo =>
    match gitProject repo project with
    | .ok q => decide (q = project)
    | .error _ => false

/-! ## Concrete worlds, documents, file systems and codecs

Inputs on which the functions are evaluated further down.
-/

/-- A repository with HEAD at `deadbeef` and no remote at all. -/
def repoNoRemote : Repository :=
  { Remote := fun _ => (none, some (.other "remote not found"))
    Head := .ok ⟨"deadbeef"⟩ }

/-- A repository with HEAD at `deadbeef` whose remote `origin` lists the given
URLs. -/
def repoWithOrigin (urls : List String) : Repository :=
  { Remote := fun name =>
      if name = "origin" then (some ⟨⟨urls⟩⟩, none) else (none, some (.other "remote not found"))
    Head := .ok ⟨"deadbeef"⟩ }

/-- No variable set, working directory outside any repository. -/
def worldPlain : World :=
  { Getenv := fun _ => ""
    PlainOpen := fun _ => .error (.other "repository does not exist") }

/-- No variable set, working directory in the given repository. -/
def worldIn (repo : Repository) : World :=
  { Getenv := fun _ => ""
    PlainOpen := fun _ => .ok repo }

/-- The endpoint variable set to `https://custom.example`, working directory in
the given repository. -/
def worldCustomEndpoint (repo : Repository) : World :=
  { Getenv := fun name => if name = "FOSSA_ENDPOINT" then "https://custom.example" else ""
    PlainOpen := fun _ => .ok repo }

/-- The document of the scenario: only the API key `abc123`. -/
def docKeyOnly : configFileV1 String :=
  { CLI := { APIKey := "abc123" } }

/-- A document that brings its own server and API key, and nothing else. -/
def docServerAndKey : configFileV1 String :=
  { CLI := { APIKey := "abc123", Server := "https://fossa.example" } }

/-- What `setDefaultValues` returns for `docKeyOnly` with the endpoint variable
set, in a repository with origin `https://github.com/x/y` and HEAD `deadbeef`. -/
def docKeyOnlyResolved : configFileV1 String :=
  { Version := 1
    CLI := { APIKey := "abc123", Server := "https://custom.example",
             Project := "https://github.com/x/y",
             Locator := "git+https://github.com/x/y$deadbeef" } }

/-- What `setDefaultValues` returns for the zero-value document with no
variable set, in a repository with origin `https://github.com/x/y` and HEAD
`deadbeef`. -/
def docOriginResolved : configFileV1 String :=
  { Version := 1
    CLI := { Server := "https://app.fossa.io", Project := "https://github.com/x/y",
             Locator := "git+https://github.com/x/y$deadbeef" } }

/-- A file system holding exactly the listed files (path, content); every
other path is reported as not existing, and every write succeeds. -/
def fsOf (files : List (String × String)) : FS :=
  { Stat := fun p =>
      match files.lookup p with
      | some _ => none
      | none => some .errNotExist
    ReadFile := fun p =>
      match files.lookup p with
      | some content => .ok content
      | none => .error .errNotExist
    writeFault := fun _ => none }

/-- A codec given by a table of (text, document): it decodes the listed texts,
with or without the header comment in front, and rejects every other text; it
encodes the listed documents and rejects every other document. -/
def codecOf (table : List (String × configFileV1 String)) : Codec String :=
  { Unmarshal := fun s =>
      match table.find? (fun t => decide (t.1 = s) || decide (configHeader ++ t.1 = s)) with
      | some t => (t.2, none)
      | none => ({}, some (.other "yaml: unmarshal errors"))
    Marshal := fun d =>
      match table.find? (fun t => decide (t.2 = d)) with
      | some t => .ok t.1
      | none => .error (.other "yaml: cannot marshal") }

/-- Two documents, each holding only an API key. -/
def codecTwoKeys : Codec String :=
  codecOf
    [ ("cli:\n  api_key: from-custom\n", { CLI := { APIKey := "from-custom" } }),
      ("cli:\n  api_key: from-dotfile\n", { CLI := { APIKey := "from-dotfile" } }) ]

/-- A working directory holding `custom.yml` and `.fossa.yml`, with different
API keys. -/
def fsCustomAndDotfile : FS :=
  fsOf
    [ ("custom.yml", "cli:\n  api_key: from-custom\n"),
      (".fossa.yml", "cli:\n  api_key: from-dotfile\n") ]

/-- The given file system, except that `p` runs through a regular file: the
path does not exist, and both `os.Stat` and `ioutil.ReadFile` fail on it with
the error `not a directory`, which `os.IsNotExist` does not recognise. -/
def throughRegularFile (fs : FS) (p : String) : FS :=
  { fs with
    Stat := fun q => if q = p then some (.other "not a directory") else fs.Stat q
    ReadFile := fun q => if q = p then .error (.other "not a directory") else fs.ReadFile q }

/-- A working directory holding only `custom.yml`. -/
def fsCustomOnly : FS :=
  fsOf [ ("custom.yml", "cli:\n  api_key: from-custom\n") ]

/-- A codec for two documents: one holding only the locator `custom`, one
holding version and server. -/
def codecLocatorOnly : Codec String :=
  codecOf
    [ ("cli:\n  locator: custom\n", { CLI := { Locator := "custom" } }),
      ("version: 1\ncli:\n  server: https://app.fossa.io\n",
        { Version := 1, CLI := { Server := "https://app.fossa.io" } }) ]

/-- A working directory holding `.fossa.yml` with only a locator. -/
def fsLocatorOnly : FS :=
  fsOf [ (".fossa.yml", "cli:\n  locator: custom\n") ]

/-- A codec for two documents: one holding version and server, one holding
version, server and the project `https://github.com/x/y`. -/
def codecOriginProject : Codec String :=
  codecOf
    [ ("version: 1\ncli:\n  server: https://app.fossa.io\n",
        { Version := 1, CLI := { Server := "https://app.fossa.io" } }),
      ("version: 1\ncli:\n  server: https://app.fossa.io\n  project: https://github.com/x/y\n",
        { Version := 1
          CLI := { Server := "https://app.fossa.io", Project := "https://github.com/x/y" } }) ]

/-- A working directory holding `.fossa.yml` with version and server only. -/
def fsServerOnly : FS :=
  fsOf [ (".fossa.yml", "version: 1\ncli:\n  server: https://app.fossa.io\n") ]

/-! ## Facts about `setDefaultValues` -/

/-- The do-block of `setDefaultValues` in closed form: the scalar steps, then
the git block on a document with empty locator. -/
theorem setDefaultValues_eq {M : Type} (w : World) (d : configFileV1 M) :
    setDefaultValues w d =
      if d.CLI.Locator = "" then
        match w.PlainOpen "." with
        | .ok repo =>
          match gitProject repo d.CLI.Project with
          | .ok project =>
            .ok ({ scalarDefaults w d with
                    CLI.Project := project
                    CLI.Locator := gitLocator repo project }, none)
          | .error p => .error p
        | .error _ => .ok (scalarDefaults w d, none)
      else .ok (scalarDefaults w d, none) := by
  rcases d with ⟨v, ⟨k, s, p, l⟩, a⟩
  unfold setDefaultValues scalarDefaults gitProject gitLocator
  simp only [bind, Except.bind, pure, Except.pure]
  by_cases hl : l = "" <;> by_cases hs : s = "" <;>
    by_cases he : w.Getenv "FOSSA_ENDPOINT" = "" <;> by_cases hk : k = "" <;>
    simp only [hl, hs, he, hk, if_true, if_false] <;>
    (cases hp : w.PlainOpen "." with
     | error e => rfl
     | ok repo =>
       simp only
       by_cases hpr : p = ""
       · simp only [hpr, if_true]
         split
         · rename_i origin _
           cases hi : index origin.Config.URLs 0 <;> cases hh : repo.Head <;> rfl
         · cases hh : repo.Head <;> rfl
       · simp only [hpr, if_false]
         cases hh : repo.Head <;> rfl)

/-- Indexing at 0 panics exactly on the empty list. -/
theorem index_zero_eq {α : Type} (xs : List α) :
    index xs 0 = match xs with
      | [] => .error (.indexOutOfRange 0 0)
      | x :: _ => .ok x := by
  cases xs <;> rfl

/-- A non-empty project is not looked up. -/
theorem gitProject_of_ne (repo : Repository) (p : String) (h : p ≠ "") :
    gitProject repo p = .ok p := by
  simp [gitProject, h]

/-- With a locator in the document the git block is skipped. -/
theorem setDefaultValues_of_locator {M : Type} (w : World) (d : configFileV1 M)
    (h : d.CLI.Locator ≠ "") :
    setDefaultValues w d = .ok (scalarDefaults w d, none) := by
  rw [setDefaultValues_eq, if_neg h]

/-- The call panics exactly on the inputs singled out by `firstURLMissing`. -/
theorem setDefaultValues_panics_iff {M : Type} (w : World) (d : configFileV1 M) :
    setDefaultValues w d = .error (.indexOutOfRange 0 0) ↔ firstURLMissing w d = true := by
  rw [setDefaultValues_eq]
  unfold firstURLMissing originWithoutURL gitProject
  by_cases hl : d.CLI.Locator = "" <;> simp only [hl, if_true, if_false]
  · cases hp : w.PlainOpen "." with
    | error e => simp
    | ok repo =>
      by_cases hpr : d.CLI.Project = "" <;> simp only [hpr, if_true, if_false]
      · rcases hr : repo.Remote "origin" with ⟨_ | origin, _ | e⟩ <;> simp only [hr]
        · simp
        · simp
        · rw [index_zero_eq]
          cases hu : origin.Config.URLs <;> simp
        · simp
      · simp
  · simp

/-- The only panic of the project lookup is the index panic on an empty list. -/
theorem gitProject_error (repo : Repository) (p : String) (e : Panic)
    (h : gitProject repo p = .error e) : e = .indexOutOfRange 0 0 := by
  unfold gitProject at h
  by_cases hpr : p = ""
  · simp only [hpr, if_true] at h
    rcases hr : repo.Remote "origin" with ⟨_ | origin, _ | e2⟩ <;> simp only [hr] at h <;>
      try cases h
    rw [index_zero_eq] at h
    cases hu : origin.Config.URLs <;> simp only [hu] at h <;> cases h
    rfl
  · simp only [hpr, if_false] at h
    cases h

/-- Every call either panics at `URLs[0]` or returns with a nil error. -/
theorem setDefaultValues_total {M : Type} (w : World) (d : configFileV1 M) :
    (firstURLMissing w d = true ∧ setDefaultValues w d = .error (.indexOutOfRange 0 0)) ∨
      (firstURLMissing w d = false ∧ ∃ c, setDefaultValues w d = .ok (c, none)) := by
  by_cases h : firstURLMissing w d = true
  · exact Or.inl ⟨h, (setDefaultValues_panics_iff w d).2 h⟩
  · refine Or.inr ⟨by simpa using h, ?_⟩
    have hne : setDefaultValues w d ≠ .error (.indexOutOfRange 0 0) :=
      fun hc => h ((setDefaultValues_panics_iff w d).1 hc)
    rw [setDefaultValues_eq] at hne ⊢
    by_cases hl : d.CLI.Locator = ""
    · simp only [hl, if_true] at hne ⊢
      cases hp : w.PlainOpen "." with
      | error e => exact ⟨_, rfl⟩
      | ok repo =>
        simp only [hp] at hne ⊢
        cases hg : gitProject repo d.CLI.Project with
        | ok q => exact ⟨_, rfl⟩
        | error p =>
          exfalso
          simp only [hg] at hne
          exact hne (by rw [gitProject_error repo _ p hg])
    · simp only [hl, if_false]
      exact ⟨_, rfl⟩

/-- Off the failing inputs the call returns with a nil error. -/
theorem setDefaultValues_returns {M : Type} (w : World) (d : configFileV1 M)
    (h : firstURLMissing w d = false) :
    ∃ c, setDefaultValues w d = .ok (c, none) := by
  rcases setDefaultValues_total w d with ⟨h1, _⟩ | ⟨_, h2⟩
  · rw [h] at h1; cases h1
  · exact h2

/-- Every returned error is nil. -/
theorem setDefaultValues_nil_error {M : Type} (w : World) (d c : configFileV1 M)
    (e : Option Error) (h : setDefaultValues w d = .ok (c, e)) : e = none := by
  rcases setDefaultValues_total w d with ⟨_, h1⟩ | ⟨_, c2, h2⟩
  · rw [h1] at h; cases h
  · rw [h2] at h; cases h; rfl

/-- The server is non-empty after the scalar steps. -/
theorem scalarDefaults_server_ne {M : Type} (w : World) (d : configFileV1 M) :
    (scalarDefaults w d).CLI.Server ≠ "" := by
  unfold scalarDefaults
  by_cases hs : d.CLI.Server = "" <;> by_cases he : w.Getenv "FOSSA_ENDPOINT" = "" <;>
    simp only [hs, he, if_true, if_false] <;> first | assumption | decide

/-- Whatever `setDefaultValues` returns carries the version, server and API key
of `scalarDefaults`, the analyze record of the input, and a nil error. -/
theorem setDefaultValues_ok {M : Type} (w : World) (d c : configFileV1 M) (e : Option Error)
    (h : setDefaultValues w d = .ok (c, e)) :
    e = none ∧ c.Version = 1 ∧ c.CLI.Server = (scalarDefaults w d).CLI.Server ∧
      c.CLI.APIKey = (scalarDefaults w d).CLI.APIKey ∧ c.Analyze = d.Analyze := by
  rw [setDefaultValues_eq] at h
  by_cases hl : d.CLI.Locator = ""
  · simp only [hl, if_true] at h
    cases hp : w.PlainOpen "." with
    | error e2 =>
      simp only [hp] at h
      cases h
      exact ⟨rfl, rfl, rfl, rfl, rfl⟩
    | ok repo =>
      simp only [hp] at h
      cases hg : gitProject repo d.CLI.Project with
      | ok q =>
        simp only [hg] at h
        cases h
        exact ⟨rfl, rfl, rfl, rfl, rfl⟩
      | error p =>
        simp only [hg] at h
        cases h
  · simp only [hl, if_false] at h
    cases h
    exact ⟨rfl, rfl, rfl, rfl, rfl⟩

/-- The locator text when HEAD is readable. -/
theorem gitLocator_of_head (repo : Repository) (p : String) (rev : Reference)
    (h : repo.Head = .ok rev) : gitLocator repo p = "git+" ++ p ++ "$" ++ rev.Hash := by
  simp [gitLocator, h]

/-- No locator when HEAD is unreadable. -/
theorem gitLocator_of_no_head (repo : Repository) (p : String) (err : Error)
    (h : repo.Head = .error err) : gitLocator repo p = "" := by
  simp [gitLocator, h]

/-- A built locator is never the empty string. -/
theorem locator_text_ne (p h : String) : "git+" ++ p ++ "$" ++ h ≠ "" := by
  intro hc
  have := congrArg String.length hc
  simp [String.length_append] at this
  exact absurd this.1.1.1 (by decide)

/-- Looking up a looked-up project gives it back. -/
theorem gitProject_idem (repo : Repository) (p q : String)
    (h : gitProject repo p = .ok q) : gitProject repo q = .ok q := by
  unfold gitProject at h ⊢
  by_cases hp : p = ""
  · simp only [hp, if_true] at h
    by_cases hq : q = ""
    · subst hq
      simp only [if_true]
      exact h
    · simp only [hq, if_false]
  · simp only [hp, if_false] at h
    cases h
    simp only [hp, if_false]

/-- The scalar steps change nothing on a document they produced. -/
theorem scalarDefaults_idem {M : Type} (w : World) (d : configFileV1 M) (p l : String) :
    scalarDefaults w { scalarDefaults w d with CLI.Project := p, CLI.Locator := l } =
      { scalarDefaults w d with CLI.Project := p, CLI.Locator := l } := by
  rcases d with ⟨v, ⟨k, s, p0, l0⟩, a⟩
  unfold scalarDefaults
  by_cases hs : s = "" <;> by_cases he : w.Getenv "FOSSA_ENDPOINT" = "" <;>
    by_cases hk : k = "" <;> by_cases hk2 : w.Getenv "FOSSA_API_KEY" = "" <;>
    simp [hs, he, hk, hk2]

/-- Off the failing state, a document with empty locator comes back with the
project and locator the git block computes. -/
theorem setDefaultValues_git {M : Type} (w : World) (d : configFileV1 M)
    (hl : d.CLI.Locator = "") (hu : firstURLMissing w d = false) :
    ∃ c, setDefaultValues w d = .ok (c, none) ∧
      match w.PlainOpen "." with
      | .error _ => c.CLI.Locator = "" ∧ c.CLI.Project = d.CLI.Project
      | .ok repo =>
        c.CLI.Project =
            (if d.CLI.Project ≠ "" then d.CLI.Project
             else match repo.Remote "origin" with
               | (some origin, none) => origin.Config.URLs.headD ""
               | _ => "") ∧
          c.CLI.Locator =
            (match repo.Head with
             | .ok revision => "git+" ++ c.CLI.Project ++ "$" ++ revision.Hash
             | .error _ => "") := by
  obtain ⟨c, hc⟩ := setDefaultValues_returns w d hu
  refine ⟨c, hc, ?_⟩
  rw [setDefaultValues_eq] at hc
  simp only [hl, if_true] at hc
  unfold firstURLMissing originWithoutURL at hu
  cases hp : w.PlainOpen "." with
  | error e2 =>
    simp only [hp] at hc ⊢
    cases hc
    exact ⟨hl, rfl⟩
  | ok repo =>
    simp only [hp] at hc hu ⊢
    cases hg : gitProject repo d.CLI.Project with
    | error p => simp only [hg] at hc; cases hc
    | ok q =>
      simp only [hg] at hc
      cases hc
      refine ⟨?_, rfl⟩
      unfold gitProject at hg
      by_cases hpr : d.CLI.Project = ""
      · simp only [hpr, if_true, ne_eq, not_true_eq_false, if_false] at hg ⊢
        rcases hr : repo.Remote "origin" with ⟨_ | origin, _ | e3⟩ <;> simp only [hr] at hg ⊢ <;>
          try (cases hg; rfl)
        rw [index_zero_eq] at hg
        cases hurl : origin.Config.URLs <;> simp only [hurl] at hg ⊢
        · cases hg
        · cases hg; rfl
      · simp only [hpr, if_false, ne_eq, not_false_eq_true, if_true] at hg ⊢
        cases hg; rfl

/-! ## Claims about `setDefaultValues` -/

/-- C7: `setDefaultValues` does not always return. In a repository whose
remote `origin` is found and lists no URL, the zero-value document makes it
evaluate `URLs[0]` on an empty slice: the call panics, and returns neither a
document nor an error. -/
theorem setDefaultValues_panics_on_origin_without_url :
    (repoWithOrigin []).Remote "origin" = (some ⟨⟨[]⟩⟩, none) ∧
    setDefaultValues (worldIn (repoWithOrigin [])) ({} : configFileV1 String) =
      .error (.indexOutOfRange 0 0) ∧
    ∀ c e, setDefaultValues (worldIn (repoWithOrigin [])) ({} : configFileV1 String) ≠
      .ok (c, e) :=
  ⟨rfl, rfl, fun _ _ h => by cases h⟩

/-- C5: the scalar fields are not always resolved. In a repository whose remote
`origin` is found and lists no URL, `setDefaultValues` panics at `URLs[0]` after
the scalar steps, so nothing is returned: neither for the document holding only
the API key `abc123` with the endpoint variable set to `https://custom.example`
(version 1, that server and that key were due), nor for a document that brings
its own server and API key (which were to be kept). -/
theorem setDefaultValues_scalars_lost_on_origin_without_url :
    (setDefaultValues (worldCustomEndpoint (repoWithOrigin [])) docKeyOnly =
        .error (.indexOutOfRange 0 0) ∧
      ∀ c e, setDefaultValues (worldCustomEndpoint (repoWithOrigin [])) docKeyOnly ≠
        .ok (c, e)) ∧
    (setDefaultValues (worldCustomEndpoint (repoWithOrigin [])) docServerAndKey =
        .error (.indexOutOfRange 0 0) ∧
      ∀ c e, setDefaultValues (worldCustomEndpoint (repoWithOrigin [])) docServerAndKey ≠
        .ok (c, e)) :=
  ⟨⟨rfl, fun _ _ h => by cases h⟩, ⟨rfl, fun _ _ h => by cases h⟩⟩

/-- Every document `setDefaultValues` returns has version 1, a non-empty
server, the server and API key of the input where these are non-empty, else the
value of `FOSSA_ENDPOINT` (or `https://app.fossa.io` when that is empty) and
the value of `FOSSA_API_KEY`. The call returns, with a nil error, on every
input except the one where it panics at `URLs[0]` (locator and project empty,
remote `origin` without URL). -/
theorem setDefaultValues_scalar_precedence {M : Type} (w : World) (d : configFileV1 M) :
    (∀ c e, setDefaultValues w d = .ok (c, e) →
      c.Version = 1 ∧ c.CLI.Server ≠ "" ∧
        (d.CLI.Server ≠ "" → c.CLI.Server = d.CLI.Server) ∧
        (d.CLI.APIKey ≠ "" → c.CLI.APIKey = d.CLI.APIKey) ∧
        (d.CLI.Server = "" → w.Getenv "FOSSA_ENDPOINT" ≠ "" →
          c.CLI.Server = w.Getenv "FOSSA_ENDPOINT") ∧
        (d.CLI.Server = "" → w.Getenv "FOSSA_ENDPOINT" = "" →
          c.CLI.Server = "https://app.fossa.io") ∧
        (d.CLI.APIKey = "" → c.CLI.APIKey = w.Getenv "FOSSA_API_KEY")) ∧
    ((firstURLMissing w d = false ∧ ∃ c, setDefaultValues w d = .ok (c, none)) ∨
      (firstURLMissing w d = true ∧ setDefaultValues w d = .error (.indexOutOfRange 0 0))) := by
  constructor
  · intro c e h
    obtain ⟨_, hv, hs, hk, _⟩ := setDefaultValues_ok w d c e h
    refine ⟨hv, ?_, ?_, ?_, ?_, ?_, ?_⟩
    · rw [hs]; exact scalarDefaults_server_ne w d
    · intro h1; rw [hs]; simp [scalarDefaults, h1]
    · intro h1; rw [hk]; simp [scalarDefaults, h1]
    · intro h1 h2; rw [hs]; simp [scalarDefaults, h1, h2]
    · intro h1 h2; rw [hs]; simp [scalarDefaults, h1, h2]
    · intro h1; rw [hk]; simp [scalarDefaults, h1]
  · rcases setDefaultValues_total w d with h | h
    · exact Or.inr h
    · exact Or.inl h

/-- The scenario with an origin URL: the document holds only the API key
`abc123`, the endpoint variable is `https://custom.example`, the repository has
origin `https://github.com/x/y`; the returned document has version 1, the
server of the environment and the API key of the file. -/
theorem setDefaultValues_scalar_precedence_at_scenario :
    setDefaultValues (worldCustomEndpoint (repoWithOrigin ["https://github.com/x/y"]))
        docKeyOnly = .ok (docKeyOnlyResolved, none) ∧
      docKeyOnlyResolved.Version = 1 ∧
      docKeyOnlyResolved.CLI.Server = "https://custom.example" ∧
      docKeyOnlyResolved.CLI.APIKey = "abc123" :=
  have h := (setDefaultValues_scalar_precedence
    (worldCustomEndpoint (repoWithOrigin ["https://github.com/x/y"])) docKeyOnly).1
    docKeyOnlyResolved none rfl
  ⟨rfl, h.1, h.2.2.2.2.1 rfl (by decide), h.2.2.2.1 (by decide)⟩

/-- C8: for a document with empty locator and empty project whose server is
set, in a repository with HEAD `deadbeef` whose remote `origin` is found but
lists no URL, `setDefaultValues` yields neither a project nor a locator: it
panics at `URLs[0]`. -/
theorem setDefaultValues_infers_nothing_on_origin_without_url :
    (repoWithOrigin []).Remote "origin" = (some ⟨⟨[]⟩⟩, none) ∧
    (repoWithOrigin []).Head = .ok ⟨"deadbeef"⟩ ∧
    setDefaultValues (worldIn (repoWithOrigin []))
        ({ CLI := { Server := "https://fossa.example" } } : configFileV1 String) =
      .error (.indexOutOfRange 0 0) :=
  ⟨rfl, rfl, rfl⟩

/-- C6 (counterexample): in a repository with HEAD `deadbeef` and no remote,
the zero-value document comes back with the non-empty locator `git+$deadbeef`
although its project is still empty. -/
theorem locator_built_with_empty_project :
    setDefaultValues (worldIn repoNoRemote) ({} : configFileV1 String) =
      .ok ({ Version := 1
             CLI := { Server := "https://app.fossa.io", Project := "", Locator := "git+$deadbeef" } },
           none) ∧
    ("git+$deadbeef" : String) ≠ "" :=
  ⟨rfl, by decide⟩

/-- C6 (amended): for a document with empty locator, on every state where the
`origin` remote, if consulted, lists a URL, `setDefaultValues` returns, and the
returned locator is non-empty exactly when the repository opens and HEAD is
readable; it is then `git+`, the returned project (which may be empty), `$` and
the HEAD hash. In every other case the locator is left empty. -/
theorem locator_built_iff_head_readable {M : Type} (w : World) (d : configFileV1 M)
    (hl : d.CLI.Locator = "") (hu : firstURLMissing w d = false) :
    ∃ c, setDefaultValues w d = .ok (c, none) ∧
      (c.CLI.Locator ≠ "" ↔
        ∃ repo revision, w.PlainOpen "." = .ok repo ∧ repo.Head = .ok revision) ∧
      (∀ repo revision, w.PlainOpen "." = .ok repo → repo.Head = .ok revision →
        c.CLI.Locator = "git+" ++ c.CLI.Project ++ "$" ++ revision.Hash) := by
  obtain ⟨c, hc, hgit⟩ := setDefaultValues_git w d hl hu
  refine ⟨c, hc, ?_, ?_⟩
  · cases hp : w.PlainOpen "." with
    | error e2 =>
      simp only [hp] at hgit
      simp [hgit.1]
    | ok repo =>
      simp only [hp] at hgit
      cases hh : repo.Head with
      | error e3 =>
        simp only [hh] at hgit
        simp [hgit.2, hh]
      | ok revision =>
        simp only [hh] at hgit
        constructor
        · intro _
          exact ⟨repo, revision, rfl, hh⟩
        · intro _
          rw [hgit.2]
          exact locator_text_ne _ _
  · intro repo revision hp hh
    simp only [hp, hh] at hgit
    exact hgit.2

/-- Witness for C6 (amended): the repository without remote, where the locator
is built from an empty project. -/
theorem locator_built_iff_head_readable_witness :
    ∃ c, setDefaultValues (worldIn repoNoRemote) ({} : configFileV1 String) = .ok (c, none) ∧
      (c.CLI.Locator ≠ "" ↔
        ∃ repo revision, (worldIn repoNoRemote).PlainOpen "." = .ok repo ∧
          repo.Head = .ok revision) ∧
      (∀ repo revision, (worldIn repoNoRemote).PlainOpen "." = .ok repo →
        repo.Head = .ok revision →
        c.CLI.Locator = "git+" ++ c.CLI.Project ++ "$" ++ revision.Hash) :=
  locator_built_iff_head_readable (worldIn repoNoRemote) {} rfl rfl

/-- C10: under a fixed environment and VCS state `setDefaultValues` is
idempotent: applied to a document it returned, it returns that document again
(with the same nil error); and a document whose locator is non-empty is
returned with locator and project unchanged, whatever the VCS state is. -/
theorem setDefaultValues_idempotent {M : Type} (w : World) (d : configFileV1 M) :
    (∀ c e, setDefaultValues w d = .ok (c, e) → setDefaultValues w c = .ok (c, e)) ∧
    (d.CLI.Locator ≠ "" →
      ∃ c, setDefaultValues w d = .ok (c, none) ∧
        c.CLI.Locator = d.CLI.Locator ∧ c.CLI.Project = d.CLI.Project ∧
        ∀ w2 : World, w2.Getenv = w.Getenv → setDefaultValues w2 d = .ok (c, none)) := by
  constructor
  · intro c e h
    rw [setDefaultValues_eq] at h
    by_cases hl : d.CLI.Locator = ""
    · simp only [hl, if_true] at h
      cases hp : w.PlainOpen "." with
      | error e2 =>
        simp only [hp] at h
        cases h
        rw [setDefaultValues_eq]
        have hl2 : (scalarDefaults w d).CLI.Locator = "" := hl
        simp only [hl2, if_true, hp]
        exact congrArg (fun x => Except.ok (x, none))
          (scalarDefaults_idem w d d.CLI.Project d.CLI.Locator)
      | ok repo =>
        simp only [hp] at h
        cases hg : gitProject repo d.CLI.Project with
        | error p => simp only [hg] at h; cases h
        | ok q =>
          simp only [hg] at h
          cases h
          have hid := scalarDefaults_idem w d q (gitLocator repo q)
          rw [setDefaultValues_eq]
          cases hh : repo.Head with
          | error e3 =>
            have hloc : gitLocator repo q = "" := gitLocator_of_no_head repo q e3 hh
            simp only [hloc, if_true, hp, gitProject_idem repo _ q hg] at hid ⊢
            rw [hid]
          | ok revision =>
            have hloc : gitLocator repo q ≠ "" := by
              rw [gitLocator_of_head repo q revision hh]
              exact locator_text_ne _ _
            simp only [hloc, if_false]
            rw [hid]
    · simp only [hl, if_false] at h
      cases h
      have hl2 : (scalarDefaults w d).CLI.Locator ≠ "" := hl
      rw [setDefaultValues_of_locator w _ hl2]
      exact congrArg (fun x => Except.ok (x, none))
        (scalarDefaults_idem w d d.CLI.Project d.CLI.Locator)
  · intro hl
    refine ⟨scalarDefaults w d, setDefaultValues_of_locator w d hl, rfl, rfl, ?_⟩
    intro w2 henv
    rw [setDefaultValues_of_locator w2 d hl]
    simp [scalarDefaults, henv]

/-- Witness for C10: in a repository with origin `https://github.com/x/y` and
HEAD `deadbeef`, the document returned for the zero-value document is returned
unchanged by a second pass. -/
theorem setDefaultValues_idempotent_witness :
    setDefaultValues (worldIn (repoWithOrigin ["https://github.com/x/y"]))
        ({ Version := 1
           CLI := { Server := "https://app.fossa.io", Project := "https://github.com/x/y",
                    Locator := "git+https://github.com/x/y$deadbeef" } } : configFileV1 String) =
      .ok ({ Version := 1
             CLI := { Server := "https://app.fossa.io", Project := "https://github.com/x/y",
                      Locator := "git+https://github.com/x/y$deadbeef" } }, none) :=
  (setDefaultValues_idempotent (worldIn (repoWithOrigin ["https://github.com/x/y"]))
    ({} : configFileV1 String)).1 _ _ rfl

/-! ## Facts about `parseConfigFile` and `readConfigFile` -/

/-- The do-block of `parseConfigFile` in closed form. -/
theorem parseConfigFile_eq {M : Type} (w : World) (fs : FS) (codec : Codec M) (filename : String) :
    parseConfigFile w fs codec filename =
      match fs.ReadFile filename with
      | .error err => .ok ({}, some err)
      | .ok bytes =>
        if (codec.Unmarshal bytes).2 ≠ none then .ok (codec.Unmarshal bytes)
        else setDefaultValues w (codec.Unmarshal bytes).1 := by
  rcases codec with ⟨um, m⟩
  rcases fs with ⟨st, rd, wf⟩
  unfold parseConfigFile
  simp only [bind, Except.bind, pure, Except.pure]
  cases hr : rd filename with
  | error err => rfl
  | ok bytes =>
    simp only
    rcases hu : um bytes with ⟨c, e⟩
    by_cases he : e = none
    · simp only [he, ne_eq, not_true_eq_false, if_false]
      cases hs : setDefaultValues w c with
      | error p => rfl
      | ok r =>
        rcases r with ⟨c2, e2⟩
        have := setDefaultValues_nil_error w c c2 e2 hs
        subst this
        simp
    · simp only [he, ne_eq, not_false_eq_true, if_true]

/-- The do-block of `readConfigFile` in closed form. -/
theorem readConfigFile_eq {M : Type} (w : World) (fs : FS) (codec : Codec M) (path : String) :
    readConfigFile w fs codec path =
      if path ≠ "" ∧ fs.Stat path ≠ none ∧ IsNotExist (fs.Stat path) = true then
        .ok (path, {}, some (.errorf "invalid config file specified"))
      else if resolvedPath fs path = "" then withPath "" (setDefaultValues w {})
      else withPath (resolvedPath fs path) (parseConfigFile w fs codec (resolvedPath fs path)) := by
  rcases fs with ⟨st, rd, wf⟩
  unfold readConfigFile resolvedPath withPath
  simp only [bind, Except.bind, pure, Except.pure]
  have hy : (".fossa.yml" : String) ≠ "" := by decide
  have hz : (".fossa.yaml" : String) ≠ "" := by decide
  by_cases hinv : path ≠ "" ∧ st path ≠ none ∧ IsNotExist (st path) = true
  · rw [if_pos hinv, if_pos hinv]
  · rw [if_neg hinv, if_neg hinv]
    by_cases h1 : st ".fossa.yml" = none
    · simp only [h1, if_true, hy, if_false]
      cases parseConfigFile w ⟨st, rd, wf⟩ codec ".fossa.yml" <;> rfl
    · simp only [h1, if_false]
      by_cases h2 : st ".fossa.yaml" = none
      · simp only [h2, if_true, hz, if_false]
        cases parseConfigFile w ⟨st, rd, wf⟩ codec ".fossa.yaml" <;> rfl
      · simp only [h2, if_false]
        by_cases h3 : path = ""
        · subst h3
          simp only [if_true]
          cases setDefaultValues w ({} : configFileV1 M) <;> rfl
        · simp only [h3, if_false]
          cases parseConfigFile w ⟨st, rd, wf⟩ codec path <;> rfl

/-- A result with a path comes from a returning callee. -/
theorem withPath_ok_inv {M : Type} (path : String)
    (r : Except Panic (configFileV1 M × Option Error)) (used : String) (c : configFileV1 M)
    (e : Option Error) (h : withPath path r = .ok (used, c, e)) :
    used = path ∧ r = .ok (c, e) := by
  unfold withPath at h
  rcases r with p | ⟨c2, e2⟩
  · cases h
  · cases h
    exact ⟨rfl, rfl⟩

/-- An explicit path that exists is read when no conventional file exists, and
is replaced by `.fossa.yml` or `.fossa.yaml` when one of them exists. -/
theorem readConfigFile_explicit_path {M : Type} (w : World) (fs : FS) (codec : Codec M)
    (path : String) (hp : path ≠ "") (he : fs.Stat path = none) :
    (fs.Stat ".fossa.yml" = none →
      readConfigFile w fs codec path =
        withPath ".fossa.yml" (parseConfigFile w fs codec ".fossa.yml")) ∧
    (fs.Stat ".fossa.yml" ≠ none → fs.Stat ".fossa.yaml" = none →
      readConfigFile w fs codec path =
        withPath ".fossa.yaml" (parseConfigFile w fs codec ".fossa.yaml")) ∧
    (fs.Stat ".fossa.yml" ≠ none → fs.Stat ".fossa.yaml" ≠ none →
      readConfigFile w fs codec path = withPath path (parseConfigFile w fs codec path)) := by
  have hinv : ¬(path ≠ "" ∧ fs.Stat path ≠ none ∧ IsNotExist (fs.Stat path) = true) :=
    fun h => h.2.1 he
  have hy : (".fossa.yml" : String) ≠ "" := by decide
  have hz : (".fossa.yaml" : String) ≠ "" := by decide
  refine ⟨?_, ?_, ?_⟩
  · intro h1
    rw [readConfigFile_eq, if_neg hinv]
    simp only [resolvedPath, h1, if_true, hy, if_false]
  · intro h1 h2
    rw [readConfigFile_eq, if_neg hinv]
    simp only [resolvedPath, h1, h2, if_true, hz, if_false]
  · intro h1 h2
    rw [readConfigFile_eq, if_neg hinv]
    simp only [resolvedPath, h1, h2, if_false, hp]

/-- C4: the load without an explicit path and without conventional file does
not always succeed. With neither `.fossa.yml` nor `.fossa.yaml` present, in a
repository whose remote `origin` is found and lists no URL, `readConfigFile ""`
calls `setDefaultValues` on the zero-value document, which panics at `URLs[0]`:
no path, no document and no error is returned. -/
theorem readConfigFile_empty_path_panics_on_origin_without_url :
    (fsOf []).Stat ".fossa.yml" ≠ none ∧ (fsOf []).Stat ".fossa.yaml" ≠ none ∧
    readConfigFile (worldIn (repoWithOrigin [])) (fsOf []) codecTwoKeys "" =
      .error (.indexOutOfRange 0 0) ∧
    ∀ used c e, readConfigFile (worldIn (repoWithOrigin [])) (fsOf []) codecTwoKeys "" ≠
      .ok (used, c, e) :=
  ⟨by decide, by decide, rfl, fun _ _ _ h => by cases h⟩

/-! ## Claims about `readConfigFile` -/

/-- C1: an explicit path that exists is not always the path that is read. With
`custom.yml` and `.fossa.yml` both present, `readConfigFile "custom.yml"`
returns the path `.fossa.yml` and the document parsed from `.fossa.yml`, not
the document stored at `custom.yml`. -/
theorem readConfigFile_explicit_path_overridden :
    fsCustomAndDotfile.Stat "custom.yml" = none ∧
    parseConfigFile worldPlain fsCustomAndDotfile codecTwoKeys "custom.yml" =
      .ok ({ Version := 1
             CLI := { APIKey := "from-custom", Server := "https://app.fossa.io" } },
           none) ∧
    readConfigFile worldPlain fsCustomAndDotfile codecTwoKeys "custom.yml" =
      .ok (".fossa.yml",
           { Version := 1
             CLI := { APIKey := "from-dotfile", Server := "https://app.fossa.io" } },
           none) :=
  ⟨rfl, rfl, rfl⟩

/-- C3 (counterexample): `custom.yml` is a regular file, so the explicit path
`custom.yml/x` does not exist, and `os.Stat` fails on it with `not a directory`
rather than with a not-exist error. `readConfigFile` does not reject it: with
`.fossa.yml` present it loads `.fossa.yml` and returns no error at all, and with
no conventional file it returns the read error of `custom.yml/x`, not the error
`invalid config file specified`. -/
theorem readConfigFile_missing_path_not_rejected :
    ("custom.yml/x" : String) ≠ "" ∧
    (throughRegularFile fsCustomAndDotfile "custom.yml/x").Stat "custom.yml/x" =
      some (.other "not a directory") ∧
    IsNotExist ((throughRegularFile fsCustomAndDotfile "custom.yml/x").Stat "custom.yml/x") =
      false ∧
    readConfigFile worldPlain (throughRegularFile fsCustomAndDotfile "custom.yml/x")
        codecTwoKeys "custom.yml/x" =
      .ok (".fossa.yml",
           { Version := 1
             CLI := { APIKey := "from-dotfile", Server := "https://app.fossa.io" } },
           none) ∧
    readConfigFile worldPlain (throughRegularFile fsCustomOnly "custom.yml/x")
        codecTwoKeys "custom.yml/x" =
      .ok ("custom.yml/x", {}, some (.other "not a directory")) :=
  ⟨by decide, rfl, rfl, rfl, rfl⟩

/-- C3 (amended): a non-empty explicit path on which `os.Stat` fails with an
error that `os.IsNotExist` recognises makes `readConfigFile` return that path,
the zero-value document and the error `invalid config file specified`, whatever
else exists in the working directory and whatever the environment and the VCS
state are. -/
theorem readConfigFile_invalid_path {M : Type} (w : World) (fs : FS) (codec : Codec M)
    (path : String) (hp : path ≠ "") (hn : IsNotExist (fs.Stat path) = true) :
    readConfigFile w fs codec path =
      .ok (path, {}, some (.errorf "invalid config file specified")) := by
  have hs : fs.Stat path ≠ none := by
    intro hc
    rw [hc] at hn
    cases hn
  rw [readConfigFile_eq, if_pos ⟨hp, hs, hn⟩]

/-- Witness for C3 (amended): `missing.yml` is absent, reported as not
existing, while `.fossa.yml` is present. -/
theorem readConfigFile_invalid_path_witness :
    readConfigFile (worldIn (repoWithOrigin ["https://github.com/x/y"])) fsCustomAndDotfile
        codecTwoKeys "missing.yml" =
      .ok ("missing.yml", {}, some (.errorf "invalid config file specified")) :=
  readConfigFile_invalid_path _ _ _ "missing.yml" (by decide) rfl

/-- For an empty explicit path `readConfigFile` goes on with `.fossa.yml`
if it exists, otherwise with `.fossa.yaml` if it exists, otherwise with the
empty path. In the last case the call is exactly `setDefaultValues` on the
zero-value document, returned under the path `""`: whatever it returns has the
path `""` and a nil error, no file content is consulted, and it returns (on
every state but the one where `setDefaultValues` itself panics). -/
theorem readConfigFile_empty_path {M : Type} (w : World) (fs : FS) (codec : Codec M) :
    readConfigFile w fs codec "" =
        (if fs.Stat ".fossa.yml" = none then
          withPath ".fossa.yml" (parseConfigFile w fs codec ".fossa.yml")
        else if fs.Stat ".fossa.yaml" = none then
          withPath ".fossa.yaml" (parseConfigFile w fs codec ".fossa.yaml")
        else withPath "" (setDefaultValues w {})) ∧
    (fs.Stat ".fossa.yml" ≠ none → fs.Stat ".fossa.yaml" ≠ none →
      (∀ used c e, readConfigFile w fs codec "" = .ok (used, c, e) →
        used = "" ∧ e = none ∧ setDefaultValues w {} = .ok (c, none)) ∧
      (∀ fs2 : FS, fs2.Stat = fs.Stat →
        readConfigFile w fs2 codec "" = readConfigFile w fs codec "") ∧
      ((∃ c, readConfigFile w fs codec "" = .ok ("", c, none)) ∨
        (firstURLMissing w ({} : configFileV1 M) = true ∧
          readConfigFile w fs codec "" = .error (.indexOutOfRange 0 0)))) := by
  have hinv : ∀ fs0 : FS,
      ¬(("" : String) ≠ "" ∧ fs0.Stat "" ≠ none ∧ IsNotExist (fs0.Stat "") = true) :=
    fun _ h => h.1 rfl
  have hy : (".fossa.yml" : String) ≠ "" := by decide
  have hz : (".fossa.yaml" : String) ≠ "" := by decide
  have hmain : ∀ fs0 : FS, readConfigFile w fs0 codec "" =
      (if fs0.Stat ".fossa.yml" = none then
        withPath ".fossa.yml" (parseConfigFile w fs0 codec ".fossa.yml")
      else if fs0.Stat ".fossa.yaml" = none then
        withPath ".fossa.yaml" (parseConfigFile w fs0 codec ".fossa.yaml")
      else withPath "" (setDefaultValues w {})) := by
    intro fs0
    rw [readConfigFile_eq, if_neg (hinv fs0)]
    unfold resolvedPath
    by_cases h1 : fs0.Stat ".fossa.yml" = none
    · simp only [h1, if_true, hy, if_false]
    · simp only [h1, if_false]
      by_cases h2 : fs0.Stat ".fossa.yaml" = none
      · simp only [h2, if_true, hz, if_false]
      · simp only [h2, if_false, if_true]
  refine ⟨hmain fs, ?_⟩
  intro h1 h2
  have heq : readConfigFile w fs codec "" = withPath "" (setDefaultValues w {}) := by
    rw [hmain fs, if_neg h1, if_neg h2]
  refine ⟨?_, ?_, ?_⟩
  · intro used c e hr
    rw [heq] at hr
    obtain ⟨hu, hs⟩ := withPath_ok_inv _ _ _ _ _ hr
    have he := setDefaultValues_nil_error w _ c e hs
    subst he
    exact ⟨hu, rfl, hs⟩
  · intro fs2 hst
    rw [heq, hmain fs2, hst, if_neg h1, if_neg h2]
  · rcases setDefaultValues_total w ({} : configFileV1 M) with ⟨hm, hp⟩ | ⟨_, c, hc⟩
    · right
      exact ⟨hm, by rw [heq, hp]; rfl⟩
    · left
      exact ⟨c, by rw [heq, hc]; rfl⟩

/-- No file in the working directory, a repository with origin
`https://github.com/x/y` and HEAD `deadbeef`: the load returns the empty path
and the document `setDefaultValues` makes of the zero-value document. -/
theorem readConfigFile_empty_path_at_origin :
    readConfigFile (worldIn (repoWithOrigin ["https://github.com/x/y"])) (fsOf [])
        codecTwoKeys "" =
      .ok ("", docOriginResolved, none) :=
  (readConfigFile_empty_path (worldIn (repoWithOrigin ["https://github.com/x/y"])) (fsOf [])
    codecTwoKeys).1.trans rfl

/-! ## Claims about `WriteConfigFile` -/

/-- The body of `WriteConfigFile` in closed form. -/
theorem WriteConfigFile_eq {M : Type} (codec : Codec M) (fs : FS) (conf : CLIConfig M) :
    WriteConfigFile codec fs conf =
      match codec.Marshal (persistedDocument conf) with
      | .error err => ({ conf with ConfigFilePath := writePath conf }, fs, some err)
      | .ok y =>
        ({ conf with ConfigFilePath := writePath conf },
          (fs.WriteFile (writePath conf) (configHeader ++ y) 0o777).2,
          (fs.WriteFile (writePath conf) (configHeader ++ y) 0o777).1) := by
  rcases conf with ⟨k, s, p, l, cp, ms⟩
  unfold WriteConfigFile persistedDocument writePath
  by_cases h : cp = "" <;> simp only [h, if_true, if_false]

/-- C9: `WriteConfigFile` records the path `.fossa.yml` when the recorded path
is empty and changes no other field of the configuration; it encodes the fresh
document with version 1, the API key, endpoint, project and modules of the
configuration and an empty locator; when the encoding succeeds it hands the header
followed by the encoding to `ioutil.WriteFile` for the recorded path with mode
0777, so that after a successful write exactly that path holds exactly those
bytes; when the encoding fails it writes nothing. The header is two comment
lines, and the locator of the configuration has no influence on what is
written. -/
theorem WriteConfigFile_persists {M : Type} (codec : Codec M) (fs : FS) (conf : CLIConfig M) :
    (WriteConfigFile codec fs conf).1 =
        { conf with
          ConfigFilePath := if conf.ConfigFilePath = "" then ".fossa.yml" else conf.ConfigFilePath } ∧
    (∀ y, codec.Marshal
          { Version := 1
            CLI := { APIKey := conf.APIKey, Server := conf.Endpoint, Project := conf.Project,
                     Locator := "" }
            Analyze := { Modules := conf.Modules } } = .ok y →
      (WriteConfigFile codec fs conf).2.1 =
          (fs.WriteFile (WriteConfigFile codec fs conf).1.ConfigFilePath (configHeader ++ y) 0o777).2 ∧
      (WriteConfigFile codec fs conf).2.2 =
          (fs.WriteFile (WriteConfigFile codec fs conf).1.ConfigFilePath (configHeader ++ y) 0o777).1 ∧
      ((WriteConfigFile codec fs conf).2.2 = none →
        (WriteConfigFile codec fs conf).2.1.ReadFile (WriteConfigFile codec fs conf).1.ConfigFilePath =
            .ok (configHeader ++ y) ∧
        (WriteConfigFile codec fs conf).2.1.Stat (WriteConfigFile codec fs conf).1.ConfigFilePath =
            none ∧
        ∀ q, q ≠ (WriteConfigFile codec fs conf).1.ConfigFilePath →
          (WriteConfigFile codec fs conf).2.1.ReadFile q = fs.ReadFile q ∧
          (WriteConfigFile codec fs conf).2.1.Stat q = fs.Stat q)) ∧
    (∀ err, codec.Marshal
          { Version := 1
            CLI := { APIKey := conf.APIKey, Server := conf.Endpoint, Project := conf.Project,
                     Locator := "" }
            Analyze := { Modules := conf.Modules } } = .error err →
      (WriteConfigFile codec fs conf).2.1 = fs ∧ (WriteConfigFile codec fs conf).2.2 = some err) ∧
    configHeader =
        "# Generated by FOSSA CLI (https://github.com/fossas/fossa-cli)\n" ++
          "# Visit https://fossa.io to learn more\n" ∧
    (∀ l, (WriteConfigFile codec fs { conf with Locator := l }).2 =
        (WriteConfigFile codec fs conf).2) := by
  have hdoc : persistedDocument conf =
      { Version := 1
        CLI := { APIKey := conf.APIKey, Server := conf.Endpoint, Project := conf.Project,
                 Locator := "" }
        Analyze := { Modules := conf.Modules } } := rfl
  refine ⟨?_, ?_, ?_, by decide, ?_⟩
  · rw [WriteConfigFile_eq]
    cases codec.Marshal (persistedDocument conf) <;> rfl
  · intro y hy
    rw [← hdoc] at hy
    have heq : WriteConfigFile codec fs conf =
        ({ conf with ConfigFilePath := writePath conf },
          (fs.WriteFile (writePath conf) (configHeader ++ y) 0o777).2,
          (fs.WriteFile (writePath conf) (configHeader ++ y) 0o777).1) := by
      rw [WriteConfigFile_eq, hy]
    rw [heq]
    refine ⟨rfl, rfl, ?_⟩
    show (fs.WriteFile (writePath conf) (configHeader ++ y) 0o777).1 = none →
      ((fs.WriteFile (writePath conf) (configHeader ++ y) 0o777).2.ReadFile (writePath conf) =
          .ok (configHeader ++ y) ∧
        (fs.WriteFile (writePath conf) (configHeader ++ y) 0o777).2.Stat (writePath conf) = none ∧
        ∀ q, q ≠ writePath conf →
          (fs.WriteFile (writePath conf) (configHeader ++ y) 0o777).2.ReadFile q = fs.ReadFile q ∧
          (fs.WriteFile (writePath conf) (configHeader ++ y) 0o777).2.Stat q = fs.Stat q)
    unfold FS.WriteFile
    cases hf : fs.writeFault (writePath conf) with
    | some err => intro hc; cases hc
    | none =>
      intro _
      refine ⟨by simp, by simp, ?_⟩
      intro q hq
      simp [hq]
  · intro err herr
    rw [← hdoc] at herr
    have heq : WriteConfigFile codec fs conf =
        ({ conf with ConfigFilePath := writePath conf }, fs, some err) := by
      rw [WriteConfigFile_eq, herr]
    rw [heq]
    exact ⟨rfl, rfl⟩
  · intro l
    rw [WriteConfigFile_eq, WriteConfigFile_eq]
    have hsame : persistedDocument { conf with Locator := l } = persistedDocument conf := rfl
    rw [hsame]
    cases codec.Marshal (persistedDocument conf) <;> rfl

/-! ## The round trip: write, then load -/

/-- A non-empty project is settled. -/
theorem projectSettled_of_ne (w : World) (project : String) (h : project ≠ "") :
    projectSettled w project = true := by
  unfold projectSettled
  cases w.PlainOpen "." with
  | error e => rfl
  | ok repo => simp [gitProject_of_ne repo project h]

/-- A project that came out of the git block (the input had no locator) is
settled. -/
theorem projectSettled_of_inferred {M : Type} (w : World) (d0 d1 : configFileV1 M)
    (e : Option Error) (h : setDefaultValues w d0 = .ok (d1, e)) (hl : d0.CLI.Locator = "") :
    projectSettled w d1.CLI.Project = true := by
  rw [setDefaultValues_eq] at h
  simp only [hl, if_true] at h
  unfold projectSettled
  cases hp : w.PlainOpen "." with
  | error err => rfl
  | ok repo =>
    simp only [hp] at h ⊢
    cases hg : gitProject repo d0.CLI.Project with
    | error pn => simp only [hg] at h; cases h
    | ok q =>
      simp only [hg] at h
      cases h
      have hq : gitProject repo q = .ok q := gitProject_idem repo _ q hg
      simp only [hq, decide_True]

/-- Parsing depends on the file system only through the content of the file. -/
theorem parseConfigFile_congr {M : Type} (w : World) (fs fs2 : FS) (codec : Codec M)
    (filename : String) (h : fs2.ReadFile filename = fs.ReadFile filename) :
    parseConfigFile w fs2 codec filename = parseConfigFile w fs codec filename := by
  rw [parseConfigFile_eq, parseConfigFile_eq, h]

/-- The resolved path after a write to the recorded path. -/
theorem resolvedPath_after_write (fs : FS) (p cp data : String) (perm : Nat)
    (hcp : cp = resolvedPath fs p ∨ cp = p)
    (hw : fs.writeFault (if cp = "" then ".fossa.yml" else cp) = none) :
    resolvedPath (fs.WriteFile (if cp = "" then ".fossa.yml" else cp) data perm).2 p =
        (if cp = "" then ".fossa.yml" else cp) ∨
      (resolvedPath (fs.WriteFile (if cp = "" then ".fossa.yml" else cp) data perm).2 p =
          resolvedPath fs p ∧
        resolvedPath fs p ≠ (if cp = "" then ".fossa.yml" else cp)) := by
  generalize hq : (if cp = "" then ".fossa.yml" else cp) = q at hw ⊢
  unfold FS.WriteFile
  simp only [hw]
  unfold resolvedPath at hcp ⊢
  simp only
  by_cases h1 : ".fossa.yml" = q
  · left
    simp only [h1, if_true]
  · simp only [h1, if_false]
    by_cases s1 : fs.Stat ".fossa.yml" = none
    · right
      simp only [s1, if_true]
      exact ⟨trivial, h1⟩
    · simp only [s1, if_false] at hcp ⊢
      by_cases h2 : ".fossa.yaml" = q
      · left
        simp only [h2, if_true]
      · simp only [h2, if_false]
        by_cases s2 : fs.Stat ".fossa.yaml" = none
        · right
          simp only [s2, if_true]
          exact ⟨trivial, h2⟩
        · simp only [s2, if_false] at hcp ⊢
          left
          have hcp2 : cp = p := hcp.elim id id
          subst hcp2
          by_cases hp : cp = ""
          · simp only [hp, if_true] at hq
            exact absurd hq h1
          · simp only [hp, if_false] at hq
            exact hq

/-- After a write to `q`, loading `p` either reads `q` or behaves as before. -/
theorem readConfigFile_after_write {M : Type} (w : World) (fs : FS) (codec : Codec M)
    (p cp data : String) (perm : Nat)
    (hvalid : ¬(p ≠ "" ∧ fs.Stat p ≠ none ∧ IsNotExist (fs.Stat p) = true))
    (hcp : cp = resolvedPath fs p ∨ cp = p)
    (hw : fs.writeFault (if cp = "" then ".fossa.yml" else cp) = none) :
    readConfigFile w (fs.WriteFile (if cp = "" then ".fossa.yml" else cp) data perm).2 codec p =
        withPath (if cp = "" then ".fossa.yml" else cp)
          (parseConfigFile w (fs.WriteFile (if cp = "" then ".fossa.yml" else cp) data perm).2 codec
            (if cp = "" then ".fossa.yml" else cp)) ∨
      readConfigFile w (fs.WriteFile (if cp = "" then ".fossa.yml" else cp) data perm).2 codec p =
        readConfigFile w fs codec p := by
  have hres := resolvedPath_after_write fs p cp data perm hcp hw
  have hq : (if cp = "" then ".fossa.yml" else cp) ≠ "" := by
    by_cases hc : cp = ""
    · simp only [hc, if_true]; decide
    · simp only [hc, if_false]; exact hc
  generalize (if cp = "" then ".fossa.yml" else cp) = q at hw hres hq ⊢
  have hstat : ∀ x, (fs.WriteFile q data perm).2.Stat x = if x = q then none else fs.Stat x := by
    intro x; unfold FS.WriteFile; simp only [hw]
  have hread : ∀ x, (fs.WriteFile q data perm).2.ReadFile x =
      if x = q then .ok data else fs.ReadFile x := by
    intro x; unfold FS.WriteFile; simp only [hw]
  have hvalid2 : ¬(p ≠ "" ∧ (fs.WriteFile q data perm).2.Stat p ≠ none ∧
      IsNotExist ((fs.WriteFile q data perm).2.Stat p) = true) := by
    rw [hstat]
    by_cases hpq : p = q
    · simp only [hpq, if_true]
      exact fun h => h.2.1 rfl
    · simp only [hpq, if_false]
      exact hvalid
  rw [readConfigFile_eq w _ codec p, if_neg hvalid2]
  rcases hres with h | ⟨h, hne⟩
  · left
    rw [h, if_neg hq]
  · right
    rw [h, readConfigFile_eq w fs codec p, if_neg hvalid]
    by_cases hr : resolvedPath fs p = ""
    · simp only [hr, if_true]
    · simp only [hr, if_false]
      rw [parseConfigFile_congr w fs _ codec _ (by rw [hread]; simp only [hne, if_false])]

/-- A load that succeeds passed the existence check, used the resolved path and
returned what `setDefaultValues` made of some document. -/
theorem readConfigFile_ok_inv {M : Type} (w : World) (fs : FS) (codec : Codec M)
    (p used : String) (d1 : configFileV1 M)
    (h : readConfigFile w fs codec p = .ok (used, d1, none)) :
    ¬(p ≠ "" ∧ fs.Stat p ≠ none ∧ IsNotExist (fs.Stat p) = true) ∧
      used = resolvedPath fs p ∧ ∃ d0, setDefaultValues w d0 = .ok (d1, none) := by
  rw [readConfigFile_eq] at h
  by_cases hinv : p ≠ "" ∧ fs.Stat p ≠ none ∧ IsNotExist (fs.Stat p) = true
  · rw [if_pos hinv] at h
    cases h
  · rw [if_neg hinv] at h
    refine ⟨hinv, ?_⟩
    by_cases hr : resolvedPath fs p = ""
    · rw [if_pos hr] at h
      obtain ⟨h1, h2⟩ := withPath_ok_inv _ _ _ _ _ h
      exact ⟨by rw [h1, hr], _, h2⟩
    · rw [if_neg hr] at h
      obtain ⟨h1, h2⟩ := withPath_ok_inv _ _ _ _ _ h
      refine ⟨h1, ?_⟩
      rw [parseConfigFile_eq] at h2
      cases hrd : fs.ReadFile (resolvedPath fs p) with
      | error err =>
        simp only [hrd] at h2
        cases h2
      | ok bytes =>
        simp only [hrd] at h2
        by_cases hu : (codec.Unmarshal bytes).2 ≠ none
        · rw [if_pos hu] at h2
          have h3 := congrArg (fun r => match r with
            | Except.ok x => x.2
            | Except.error _ => none) h2
          simp only at h3
          exact absurd h3 hu
        · rw [if_neg hu] at h2
          exact ⟨_, h2⟩

/-- What a returned document tells about the API key variable. -/
theorem apiKey_of_returned {M : Type} (w : World) (d0 d1 : configFileV1 M) (e : Option Error)
    (h : setDefaultValues w d0 = .ok (d1, e)) (hk : d1.CLI.APIKey = "") :
    w.Getenv "FOSSA_API_KEY" = "" := by
  obtain ⟨_, _, _, hkey, _⟩ := setDefaultValues_ok w d0 d1 e h
  rw [hkey] at hk
  unfold scalarDefaults at hk
  simp only at hk
  by_cases h0 : d0.CLI.APIKey = ""
  · simpa only [h0, if_true] using hk
  · simp only [h0, if_false] at hk

/-- The server of a returned document is non-empty. -/
theorem server_of_returned {M : Type} (w : World) (d0 d1 : configFileV1 M) (e : Option Error)
    (h : setDefaultValues w d0 = .ok (d1, e)) : d1.CLI.Server ≠ "" := by
  obtain ⟨_, _, hs, _, _⟩ := setDefaultValues_ok w d0 d1 e h
  rw [hs]
  exact scalarDefaults_server_ne w d0

/-- The codec `codecLocatorOnly` decodes what it encoded, header in front. -/
theorem codecLocatorOnly_round_trip (d : configFileV1 String) (y : String)
    (h : codecLocatorOnly.Marshal d = .ok y) :
    codecLocatorOnly.Unmarshal (configHeader ++ y) = (d, none) := by
  by_cases h1 : ({ CLI := { Locator := "custom" } } : configFileV1 String) = d
  · subst h1
    have hy : codecLocatorOnly.Marshal { CLI := { Locator := "custom" } } =
        .ok "cli:\n  locator: custom\n" := rfl
    rw [hy] at h
    cases h
    rfl
  · by_cases h2 : ({ Version := 1, CLI := { Server := "https://app.fossa.io" } } :
        configFileV1 String) = d
    · subst h2
      have hy : codecLocatorOnly.Marshal
          { Version := 1, CLI := { Server := "https://app.fossa.io" } } =
          .ok "version: 1\ncli:\n  server: https://app.fossa.io\n" := rfl
      rw [hy] at h
      cases h
      rfl
    · exfalso
      unfold codecLocatorOnly codecOf at h
      simp [List.find?, h1, h2] at h

set_option maxRecDepth 8192 in
/-- The codec `codecOriginProject` decodes what it encoded, header in front. -/
theorem codecOriginProject_round_trip (d : configFileV1 String) (y : String)
    (h : codecOriginProject.Marshal d = .ok y) :
    codecOriginProject.Unmarshal (configHeader ++ y) = (d, none) := by
  by_cases h1 : ({ Version := 1, CLI := { Server := "https://app.fossa.io" } } :
      configFileV1 String) = d
  · subst h1
    have hy : codecOriginProject.Marshal
        { Version := 1, CLI := { Server := "https://app.fossa.io" } } =
        .ok "version: 1\ncli:\n  server: https://app.fossa.io\n" := rfl
    rw [hy] at h
    cases h
    rfl
  · by_cases h2 : ({ Version := 1
                     CLI := { Server := "https://app.fossa.io",
                              Project := "https://github.com/x/y" } } :
        configFileV1 String) = d
    · subst h2
      have hy : codecOriginProject.Marshal
          { Version := 1
            CLI := { Server := "https://app.fossa.io", Project := "https://github.com/x/y" } } =
          .ok "version: 1\ncli:\n  server: https://app.fossa.io\n  project: https://github.com/x/y\n" :=
        rfl
      rw [hy] at h
      cases h
      rfl
    · exfalso
      unfold codecOriginProject codecOf at h
      simp [List.find?, h1, h2] at h

/-- C2 (counterexample): `.fossa.yml` stores only the locator `custom`, the
working directory is a repository whose `origin` has the URL
`https://github.com/x/y`. The first load returns an empty project (a document
with a locator is not touched by the git block); the write drops the locator;
the second load therefore infers the project from `origin`, and the two
configurations differ in `project`. -/
theorem round_trip_changes_project :
    (∀ d y, codecLocatorOnly.Marshal d = .ok y →
      codecLocatorOnly.Unmarshal (configHeader ++ y) = (d, none)) ∧
    readConfigFile (worldIn (repoWithOrigin ["https://github.com/x/y"])) fsLocatorOnly
        codecLocatorOnly ".fossa.yml" =
      .ok (".fossa.yml",
           { Version := 1
             CLI := { Server := "https://app.fossa.io", Project := "", Locator := "custom" } },
           none) ∧
    (WriteConfigFile codecLocatorOnly fsLocatorOnly
        { Endpoint := "https://app.fossa.io", Project := "", Locator := "custom",
          ConfigFilePath := ".fossa.yml" }).2.2 = none ∧
    readConfigFile (worldIn (repoWithOrigin ["https://github.com/x/y"]))
        (WriteConfigFile codecLocatorOnly fsLocatorOnly
          { Endpoint := "https://app.fossa.io", Project := "", Locator := "custom",
            ConfigFilePath := ".fossa.yml" }).2.1
        codecLocatorOnly ".fossa.yml" =
      .ok (".fossa.yml",
           { Version := 1
             CLI := { Server := "https://app.fossa.io", Project := "https://github.com/x/y",
                      Locator := "git+https://github.com/x/y$deadbeef" } },
           none) :=
  ⟨codecLocatorOnly_round_trip, rfl, rfl, rfl⟩

/-- C2 (amended): let loading `p` succeed with document `d1` under path `used`,
let `conf` carry the API key, endpoint, project and modules of `d1` and the
path `used` (or `p`), and let `WriteConfigFile` succeed on it, with a codec
that decodes the header followed by an encoding to the encoded document. Then
every second load of `p` that returns has a nil error and the version, API
key, server and modules of `d1`; and when the project inference leaves the
loaded project alone, the second load does return, with the project of `d1`
as well. -/
theorem round_trip_persisted_fields {M : Type} (w : World) (fs : FS) (codec : Codec M)
    (p used : String) (d1 : configFileV1 M) (conf : CLIConfig M)
    (hcodec : ∀ d y, codec.Marshal d = .ok y → codec.Unmarshal (configHeader ++ y) = (d, none))
    (hload : readConfigFile w fs codec p = .ok (used, d1, none))
    (hkey : conf.APIKey = d1.CLI.APIKey) (hserver : conf.Endpoint = d1.CLI.Server)
    (hproject : conf.Project = d1.CLI.Project) (hmodules : conf.Modules = d1.Analyze.Modules)
    (hpath : conf.ConfigFilePath = used ∨ conf.ConfigFilePath = p)
    (hwrite : (WriteConfigFile codec fs conf).2.2 = none) :
    (∀ used2 d2 e2,
      readConfigFile w (WriteConfigFile codec fs conf).2.1 codec p = .ok (used2, d2, e2) →
        e2 = none ∧ d2.Version = d1.Version ∧ d2.CLI.APIKey = d1.CLI.APIKey ∧
          d2.CLI.Server = d1.CLI.Server ∧ d2.Analyze.Modules = d1.Analyze.Modules) ∧
    (projectSettled w d1.CLI.Project = true →
      ∃ used2 d2,
        readConfigFile w (WriteConfigFile codec fs conf).2.1 codec p = .ok (used2, d2, none) ∧
          d2.Version = d1.Version ∧ d2.CLI.APIKey = d1.CLI.APIKey ∧
          d2.CLI.Server = d1.CLI.Server ∧ d2.CLI.Project = d1.CLI.Project ∧
          d2.Analyze.Modules = d1.Analyze.Modules) := by
  obtain ⟨hvalid, hused, d0, hd0⟩ := readConfigFile_ok_inv w fs codec p used d1 hload
  obtain ⟨_, hv1, _, _, _⟩ := setDefaultValues_ok w d0 d1 none hd0
  have hs1 : d1.CLI.Server ≠ "" := server_of_returned w d0 d1 none hd0
  have hk1 : d1.CLI.APIKey = "" → w.Getenv "FOSSA_API_KEY" = "" :=
    apiKey_of_returned w d0 d1 none hd0
  -- the write
  rw [WriteConfigFile_eq] at hwrite ⊢
  cases hm : codec.Marshal (persistedDocument conf) with
  | error err => simp only [hm] at hwrite; cases hwrite
  | ok y =>
    simp only [hm] at hwrite ⊢
    have hfault : fs.writeFault (writePath conf) = none := by
      unfold FS.WriteFile at hwrite
      cases hf : fs.writeFault (writePath conf) with
      | none => rfl
      | some err => simp only [hf] at hwrite; cases hwrite
    have hcp : conf.ConfigFilePath = resolvedPath fs p ∨ conf.ConfigFilePath = p := by
      rw [← hused]; exact hpath
    -- the second load reads the written file, or is the first load again
    have hparse : parseConfigFile w
        (fs.WriteFile (writePath conf) (configHeader ++ y) 0o777).2 codec (writePath conf) =
        setDefaultValues w (persistedDocument conf) := by
      rw [parseConfigFile_eq]
      have hr : (fs.WriteFile (writePath conf) (configHeader ++ y) 0o777).2.ReadFile
          (writePath conf) = .ok (configHeader ++ y) := by
        unfold FS.WriteFile; simp only [hfault, if_true]
      rw [hr]
      simp only [hcodec _ _ hm, ne_eq, not_true_eq_false, if_false]
    have hfields : ∀ d2 e2, setDefaultValues w (persistedDocument conf) = .ok (d2, e2) →
        e2 = none ∧ d2.Version = d1.Version ∧ d2.CLI.APIKey = d1.CLI.APIKey ∧
          d2.CLI.Server = d1.CLI.Server ∧ d2.Analyze.Modules = d1.Analyze.Modules := by
      intro d2 e2 h2
      obtain ⟨he, hv, hs, hk, ha⟩ := setDefaultValues_ok w _ d2 e2 h2
      refine ⟨he, by rw [hv, hv1], ?_, ?_, ?_⟩
      · rw [hk]
        unfold scalarDefaults persistedDocument
        simp only [hkey]
        by_cases h0 : d1.CLI.APIKey = ""
        · simp only [h0, if_true]; exact hk1 h0
        · simp only [h0, if_false]
      · rw [hs]
        unfold scalarDefaults persistedDocument
        simp only [hserver, hs1, if_false]
      · rw [ha]
        exact hmodules
    have hafter := readConfigFile_after_write w fs codec p conf.ConfigFilePath
      (configHeader ++ y) 0o777 hvalid hcp hfault
    change _ ∨ _ at hafter
    constructor
    · intro used2 d2 e2 h2
      rcases hafter with h | h
      · have h3 : readConfigFile w (fs.WriteFile (writePath conf) (configHeader ++ y) 0o777).2
            codec p = withPath (writePath conf) (setDefaultValues w (persistedDocument conf)) := by
          rw [← hparse]; exact h
        rw [h3] at h2
        exact hfields d2 e2 (withPath_ok_inv _ _ _ _ _ h2).2
      · have h3 : readConfigFile w (fs.WriteFile (writePath conf) (configHeader ++ y) 0o777).2
            codec p = readConfigFile w fs codec p := h
        rw [h3, hload] at h2
        cases h2
        exact ⟨rfl, rfl, rfl, rfl, rfl⟩
    · intro hsettled
      rcases hafter with h | h
      · have h3 : readConfigFile w (fs.WriteFile (writePath conf) (configHeader ++ y) 0o777).2
            codec p = withPath (writePath conf) (setDefaultValues w (persistedDocument conf)) := by
          rw [← hparse]; exact h
        have hret : ∃ d2, setDefaultValues w (persistedDocument conf) = .ok (d2, none) ∧
            d2.CLI.Project = d1.CLI.Project := by
          rw [setDefaultValues_eq]
          have hl : (persistedDocument conf).CLI.Locator = "" := rfl
          have hp : (persistedDocument conf).CLI.Project = d1.CLI.Project := hproject
          simp only [hl, if_true, hp]
          unfold projectSettled at hsettled
          cases ho : w.PlainOpen "." with
          | error err => exact ⟨_, rfl, hp⟩
          | ok repo =>
            simp only [ho] at hsettled ⊢
            cases hg : gitProject repo d1.CLI.Project with
            | error pn => simp only [hg] at hsettled; cases hsettled
            | ok q =>
              simp only [hg] at hsettled ⊢
              exact ⟨_, rfl, of_decide_eq_true hsettled⟩
        obtain ⟨d2, hd2, hp2⟩ := hret
        obtain ⟨_, hv, hk, hs, hmod⟩ := hfields d2 none hd2
        refine ⟨writePath conf, d2, ?_, hv, hk, hs, hp2, hmod⟩
        rw [h3, hd2]
        rfl
      · have h3 : readConfigFile w (fs.WriteFile (writePath conf) (configHeader ++ y) 0o777).2
            codec p = readConfigFile w fs codec p := h
        exact ⟨used, d1, by rw [h3, hload], rfl, rfl, rfl, rfl, rfl⟩

/-- Witness for C2 (amended): `.fossa.yml` holds version and server, the
working directory is a repository with origin `https://github.com/x/y` and
HEAD `deadbeef`; the loaded configuration is written back and loaded again. -/
theorem round_trip_persisted_fields_witness :
    ∃ used2 d2,
      readConfigFile (worldIn (repoWithOrigin ["https://github.com/x/y"]))
          (WriteConfigFile codecOriginProject fsServerOnly
            { Endpoint := "https://app.fossa.io", Project := "https://github.com/x/y",
              Locator := "git+https://github.com/x/y$deadbeef",
              ConfigFilePath := ".fossa.yml" }).2.1
          codecOriginProject "" = .ok (used2, d2, none) ∧
        d2.Version = 1 ∧ d2.CLI.APIKey = "" ∧ d2.CLI.Server = "https://app.fossa.io" ∧
        d2.CLI.Project = "https://github.com/x/y" ∧ d2.Analyze.Modules = [] :=
  (round_trip_persisted_fields (worldIn (repoWithOrigin ["https://github.com/x/y"]))
    fsServerOnly codecOriginProject "" ".fossa.yml"
    { Version := 1
      CLI := { Server := "https://app.fossa.io", Project := "https://github.com/x/y",
               Locator := "git+https://github.com/x/y$deadbeef" } }
    { Endpoint := "https://app.fossa.io", Project := "https://github.com/x/y",
      Locator := "git+https://github.com/x/y$deadbeef", ConfigFilePath := ".fossa.yml" }
    codecOriginProject_round_trip rfl rfl rfl rfl rfl (Or.inl rfl) rfl).2 rfl

end config
